import Mathlib

/-!
# Verification of `deepsignal/extract_features.py`

A shallow embedding of the feature-extraction module of deepsignal, together
with theorems settling the behavioural claims about it.

Modelling conventions:
* Python lists / numpy 1-d arrays are Lean `List`s; slicing `a[s:e]` becomes
  `(a.drop s).take (e - s)`, and the negative slice `a[-n:]` becomes `lastN`.
* Python unbounded integers are `Int` (or `Nat` where the source value is a
  count or an index that is never negative).
* Signal samples are modelled with `ℚ`.  Two operations of the source are
  irrational over ℚ and are modelled up to a monotone rescaling that no
  theorem below depends on: `np.std` (square root of the population variance)
  is tracked as the variance itself (`npStdSq`), and the float constant used
  by `statsmodels.robust.mad` is replaced by a rational literal.  No claim in
  this development inspects the numeric values of normalized signals, means
  or stds.
* Code that raises an exception is modelled with `Option`: `none` is a raised
  exception.  In particular `np.concatenate` applied to an empty list of
  arrays raises `ValueError` (`npConcatenate`), and a failed dict lookup
  raises `KeyError` (`chrom2len` is a `String → Option Int`).
* The one randomized spot, `random.sample(range(n), k)` in
  `_get_central_signals`, is modelled by threading the drawn index list as an
  explicit argument `draw`; `random.sample` guarantees the draw consists of
  `k` distinct indices below `n`, which theorems take as hypotheses.
-/

set_option maxRecDepth 10000

namespace DeepSignal

/-- The last `n` entries of a list: Python's `a[-n:]` for `n > 0`
(for `n ≥ length` the whole list is returned, as in Python). -/
def lastN (l : List ℚ) (n : Nat) : List ℚ :=
  l.drop (l.length - n)

/-- `np.concatenate` on a list of 1-d arrays.  numpy raises
`ValueError: need at least one array to concatenate` on an empty list,
modelled by `none`. -/
def npConcatenate (ls : List (List ℚ)) : Option (List ℚ) :=
  if ls = [] then none else some ls.flatten

/-- Python's `sorted` on a list of natural numbers (ascending). -/
def pySorted (l : List Nat) : List Nat :=
  List.insertionSort (· ≤ ·) l

/-- The shortfall-shifting step of `_get_central_signals` (lines 185-190):
if the left budget exceeds the available left samples the difference is moved
onto the right budget, `elif` symmetrically for the right budget. -/
def shiftLens (left_len right_len nleft nright : Nat) : Nat × Nat :=
  if nleft < left_len then (nleft, right_len + left_len - nleft)
  else if nright < right_len then (left_len + right_len - nright, nright)
  else (left_len, right_len)

/-- `_get_central_signals(signals_list, rawsignal_num)` (lines 161-197).
`draw` stands for the value of `random.sample(range(len(allcentsignals)),
rawsignal_num)` in the randomized branch; the code sorts it before indexing.
The Python `assert` on line 192 is modelled as a guard (a failing assert is a
raised `AssertionError`).  `int((len - 1) / 2)` equals `(len - 1) / 2` in
`Nat` for every non-empty list. -/
def getCentralSignals (signals_list : List (List ℚ)) (rawsignal_num : Nat)
    (draw : List Nat) : Option (List ℚ) :=
  let signal_lens := signals_list.map List.length
  if signal_lens.sum < rawsignal_num then
    (npConcatenate signals_list).map fun real_signals =>
      real_signals ++ List.replicate (rawsignal_num - real_signals.length) (0 : ℚ)
  else
    let mid_loc := (signals_list.length - 1) / 2
    match signals_list.get? mid_loc with
    | none => none
    | some allcentsignals =>
      if rawsignal_num ≤ allcentsignals.length then
        some ((pySorted draw).map fun x => allcentsignals.getD x 0)
      else
        match npConcatenate (signals_list.take mid_loc),
              npConcatenate (signals_list.drop mid_loc) with
        | some left_signals, some right_signals =>
          let left_len0 := (rawsignal_num - allcentsignals.length) / 2
          let p := shiftLens left_len0 (rawsignal_num - left_len0)
              left_signals.length right_signals.length
          if p.2 + p.1 = rawsignal_num then
            if p.1 = 0 then some (right_signals.take p.2)
            else some (lastN left_signals p.1 ++ right_signals.take p.2)
          else none
        | _, _ => none

/-- Lines 218-221: the start of the read in align-strand coordinates. -/
def startInAlignstrand (alignstrand : String) (chrom_start chromlen glen : Int) : Int :=
  if alignstrand = "+" then chrom_start else chromlen - (chrom_start + glen)

/-- Lines 236-239: the emitted `pos`, flipping coordinates on the `-` strand. -/
def refPosInStrand (alignstrand : String) (chromlen ref_pos_in_alignstrand : Int) : Int :=
  if alignstrand = "-" then chromlen - 1 - ref_pos_in_alignstrand
  else ref_pos_in_alignstrand

/-- Follows the spec's words (§8): the inverse strand formula, undoing the
strand flip and subtracting the align-strand start, used to state the
round-trip property.  This definition is written from the spec, not from the
source, and is compared against the source-derived mapper. -/
def specInverseOffset (alignstrand : String) (chrom_start chromlen glen pos : Int) : Int :=
  (if alignstrand = "-" then chromlen - 1 - pos else pos) -
    startInAlignstrand alignstrand chrom_start chromlen glen

/-- `np.mean` over ℚ (mean of the empty array is NaN in numpy; here it is
`0/0 = 0`, a value no theorem depends on). -/
def npMean (l : List ℚ) : ℚ := l.sum / l.length

/-- `np.median` over ℚ: middle element of the sorted list, or the average of
the two middle elements for even length. -/
def npMedian (l : List ℚ) : ℚ :=
  let s := List.insertionSort (· ≤ ·) l
  if l.length = 0 then 0
  else if l.length % 2 = 1 then s.getD (l.length / 2) 0
  else (s.getD (l.length / 2 - 1) 0 + s.getD (l.length / 2) 0) / 2

/-- `statsmodels.robust.mad`: median absolute deviation scaled by
`1 / Φ⁻¹(3/4)`; the irrational constant is replaced by the rational literal
used (as a float) by statsmodels. -/
def robust_mad (l : List ℚ) : ℚ :=
  npMedian (l.map fun x => |x - npMedian l|) / (0.6744897501960817 : ℚ)

/-- `np.std` squared, i.e. the population variance.  `np.std` itself is the
(irrational) square root of this; no theorem below depends on the value. -/
def npStdSq (l : List ℚ) : ℚ :=
  npMean (l.map fun x => (x - npMean l) ^ 2)

/-- `np.around(·, decimals=6)` (numpy's banker's rounding on floats is
modelled by `round` on ℚ; no theorem depends on the value). -/
def around6 (x : ℚ) : ℚ :=
  (round (x * 1000000) : ℚ) / 1000000

/-- `_normalize_signals(signals, normalize_method)` (lines 120-128): for
`zscore` shift by the mean and scale by the std, for `mad` shift by the
median and scale by the MAD, otherwise raise `ValueError`. -/
def normalizeSignals (signals : List ℚ) (normalize_method : String) : Option (List ℚ) :=
  if normalize_method = "zscore" then
    some (signals.map fun x => around6 ((x - npMean signals) / npStdSq signals))
  else if normalize_method = "mad" then
    some (signals.map fun x => around6 ((x - npMedian signals) / robust_mad signals))
  else none

/-- Modelled from the spec: `iupac_alphabets` lives in
`utils/process_utils.py`, which is not part of the sources here; per §4.3 and
§3 of the spec it maps each IUPAC letter to the list of its concrete bases
(each as a one-character string), and an unrecognized letter has no entry
(a dict lookup failure, i.e. `KeyError`). -/
def iupac_alphabets (c : Char) : Option (List (List Char)) :=
  if c = 'A' then some [['A']]
  else if c = 'T' then some [['T']]
  else if c = 'C' then some [['C']]
  else if c = 'G' then some [['G']]
  else if c = 'R' then some [['A'], ['G']]
  else if c = 'M' then some [['A'], ['C']]
  else if c = 'S' then some [['C'], ['G']]
  else if c = 'Y' then some [['C'], ['T']]
  else if c = 'K' then some [['G'], ['T']]
  else if c = 'W' then some [['A'], ['T']]
  else if c = 'B' then some [['C'], ['G'], ['T']]
  else if c = 'D' then some [['A'], ['G'], ['T']]
  else if c = 'H' then some [['A'], ['C'], ['T']]
  else if c = 'V' then some [['A'], ['C'], ['G']]
  else if c = 'N' then some [['A'], ['C'], ['G'], ['T']]
  else none

/-- `recursive_permute(bases_list)` (lines 136-148), the inner recursion of
`_convert_motif_seq`.  The Python function has no base case for the empty
list: on `[]` it calls itself on `bases_list[1:] == []` forever.  The
recursion is therefore modelled with explicit fuel, one unit per recursive
call; `none` means the fuel ran out (the call never returns by itself). -/
def recursive_permute (fuel : Nat) (bases_list : List (List (List Char))) :
    Option (List (List Char)) :=
  match fuel, bases_list with
  | 0, _ => none
  | _ + 1, [b] => some b
  | _ + 1, [b1, b2] => some (b1.flatMap fun fbase => b2.map fun sbase => fbase ++ sbase)
  | fuel + 1, bl =>
      (recursive_permute fuel bl.tail).bind fun pseqs =>
        recursive_permute fuel [bl.headD [], pseqs]

/-- The per-letter IUPAC lookup loop of `_convert_motif_seq` (lines 132-134);
a `KeyError` on any letter propagates. -/
def lookupBases : List Char → Option (List (List (List Char)))
  | [] => some []
  | c :: rest =>
    (iupac_alphabets c).bind fun b => (lookupBases rest).map fun bs => b :: bs

/-- `_convert_motif_seq(ori_seq)` (lines 131-149). -/
def convert_motif_seq (fuel : Nat) (ori_seq : List Char) : Option (List (List Char)) :=
  (lookupBases ori_seq).bind fun outbases => recursive_permute fuel outbases

/-- Python's `str.split(',')` on a character list: `""` gives `[""]`,
adjacent or trailing commas give empty elements. -/
def splitComma : List Char → List (List Char)
  | [] => [[]]
  | c :: rest =>
    if c = ',' then [] :: splitComma rest
    else
      match splitComma rest with
      | [] => [[c]]
      | g :: gs => (c :: g) :: gs

/-- The accumulation loop of `_get_motif_seqs` (lines 155-157). -/
def convertAll (fuel : Nat) : List (List Char) → Option (List (List Char))
  | [] => some []
  | m :: rest =>
    (convert_motif_seq fuel m).bind fun cs =>
      (convertAll fuel rest).map fun rs => cs ++ rs

/-- `_get_motif_seqs(motifs)` (lines 152-158): split on commas, expand each
element, concatenate. -/
def get_motif_seqs (fuel : Nat) (motifs : List Char) : Option (List (List Char)) :=
  convertAll fuel (splitComma motifs)

/-- The cartesian product of a non-empty list of alternative-lists, in the
order produced by `recursive_permute`: first component varies slowest. -/
def motifCartesian : List (List (List Char)) → List (List Char)
  | [] => []
  | [b] => b
  | b :: rest => b.flatMap fun fbase => (motifCartesian rest).map fun s => fbase ++ s

/-- Modelled from the spec: `get_refloc_of_methysite_in_motif` lives in
`utils/process_utils.py`, which is not part of the sources here; per §4.3 of
the spec it returns every offset at which the motif occurs as a literal
substring of the sequence, shifted by the 0-based target offset within the
motif. -/
def get_refloc_of_methysite_in_motif (seq motif : List Char) (methyloc : Nat) :
    List Nat :=
  (List.range (seq.length - motif.length + 1)).filterMap fun i =>
    if (seq.drop i).take motif.length = motif then some (i + methyloc) else none

/-- The alignment metadata of one read, as returned by
`_get_alignment_info_from_fast5` when the alignment group is present. -/
structure AlignInfo where
  readname : String
  strand : String
  alignstrand : String
  chrom : String
  chromStart : Int
deriving DecidableEq, Repr

/-- The raw content of one read, as returned by `_get_label_raw`:
the raw signal and the event table of `(start, length, base)` triples. -/
structure DecodedRead where
  rawSignal : List ℚ
  events : List (Nat × Nat × Char)
deriving DecidableEq, Repr

/-- One input file.  `decoded = none` models `_get_label_raw` raising
(unreadable file / missing raw data or events); `align = none` models
`_get_alignment_info_from_fast5` returning the empty-string tuple, after
which the read unavoidably fails (either `chrom2len['']` raises `KeyError`,
or the arithmetic on the empty-string `chrom_start` raises `TypeError`). -/
structure Fast5 where
  decoded : Option DecodedRead
  align : Option AlignInfo
deriving DecidableEq, Repr

/-- One output feature record (one line of the output file), with the
numeric fields kept as values rather than serialized text.  `signalMeans`
and `signalStds` carry the 6-decimal rounding applied at serialization. -/
structure FeatureRecord where
  chrom : String
  pos : Int
  alignstrand : String
  posInRef : Int
  readname : String
  strand : String
  kMer : List Char
  signalMeans : List ℚ
  signalStds : List ℚ
  signalLens : List Nat
  centSignals : List ℚ
  methyLabel : String
deriving DecidableEq, Repr

/-- The body of the per-site loop of `_extract_features` (lines 233-261) for
one in-bounds site: build the k-mer window, its per-base statistics and the
central signal vector.  `none` models `_get_central_signals` raising. -/
def buildRecord (genomeseq : List Char) (signal_list : List (List ℚ)) (chrom : String)
    (alignstrand readname strand : String) (chromlen chrom_start_in_alignstrand : Int)
    (num_bases raw_signals_len : Nat) (methy_label : String) (draws : Nat → List Nat)
    (loc : Nat) : Option FeatureRecord :=
  let cpgloc_in_ref : Int := (loc : Int) + chrom_start_in_alignstrand
  let pos : Int := refPosInStrand alignstrand chromlen cpgloc_in_ref
  let k_mer := (genomeseq.drop (loc - num_bases)).take (loc + num_bases + 1 - (loc - num_bases))
  let k_signals := (signal_list.drop (loc - num_bases)).take (loc + num_bases + 1 - (loc - num_bases))
  (getCentralSignals k_signals raw_signals_len (draws loc)).map fun cent_signals =>
    { chrom := chrom, pos := pos, alignstrand := alignstrand, posInRef := cpgloc_in_ref,
      readname := readname, strand := strand, kMer := k_mer,
      signalMeans := (k_signals.map npMean).map around6,
      signalStds := (k_signals.map npStdSq).map around6,
      signalLens := k_signals.map List.length,
      centSignals := cent_signals, methyLabel := methy_label }

/-- The per-site loop of `_extract_features` (lines 231-261): sites outside
`num_bases ≤ loc < len(genomeseq) - num_bases` are skipped silently; a raise
while building a record aborts the loop keeping the records built so far and
marks the read failed (`true`). -/
def siteRecords (genomeseq : List Char) (signal_list : List (List ℚ)) (chrom : String)
    (alignstrand readname strand : String) (chromlen chrom_start_in_alignstrand : Int)
    (num_bases raw_signals_len : Nat) (methy_label : String) (draws : Nat → List Nat) :
    List Nat → List FeatureRecord × Bool
  | [] => ([], false)
  | loc :: rest =>
    if num_bases ≤ loc ∧ loc < genomeseq.length - num_bases then
      match buildRecord genomeseq signal_list chrom alignstrand readname strand
          chromlen chrom_start_in_alignstrand num_bases raw_signals_len methy_label
          draws loc with
      | none => ([], true)
      | some r =>
        let res := siteRecords genomeseq signal_list chrom alignstrand readname strand
            chromlen chrom_start_in_alignstrand num_bases raw_signals_len methy_label
            draws rest
        (r :: res.1, res.2)
    else
      siteRecords genomeseq signal_list chrom alignstrand readname strand
        chromlen chrom_start_in_alignstrand num_bases raw_signals_len methy_label
        draws rest

/-- The body of the per-read `try` of `_extract_features` (lines 206-261):
decode, normalize, segment, fetch alignment info, look up the chromosome
length, locate motif sites, check the k-mer length, then run the per-site
loop.  Returns the records this read contributed and whether the read raised
(`except Exception` → counted as failure). -/
def processRead (fast5 : Fast5) (normalize_method : String)
    (motif_seqs : List (List Char)) (methyloc : Nat)
    (chrom2len : String → Option Int) (kmer_len : Nat) (raw_signals_len : Nat)
    (methy_label : String) (draws : Nat → List Nat) : List FeatureRecord × Bool :=
  match fast5.decoded with
  | none => ([], true)
  | some dr =>
    match normalizeSignals dr.rawSignal normalize_method with
    | none => ([], true)
    | some norm_signals =>
      let genomeseq : List Char := dr.events.map fun e => e.2.2
      let signal_list : List (List ℚ) :=
        dr.events.map fun e => (norm_signals.drop e.1).take e.2.1
      match fast5.align with
      | none => ([], true)
      | some a =>
        match chrom2len a.chrom with
        | none => ([], true)
        | some chromlen =>
          let chrom_start_in_alignstrand :=
            startInAlignstrand a.alignstrand a.chromStart chromlen genomeseq.length
          let cpg_site_locs := motif_seqs.flatMap fun mseq =>
            get_refloc_of_methysite_in_motif genomeseq mseq methyloc
          if kmer_len % 2 = 0 then ([], true)
          else
            siteRecords genomeseq signal_list a.chrom a.alignstrand a.readname a.strand
              chromlen chrom_start_in_alignstrand ((kmer_len - 1) / 2) raw_signals_len
              methy_label draws cpg_site_locs

/-- `_extract_features(fast5s, ...)` (lines 200-268): the per-read loop with
its `try/except`, accumulating the feature records and the failed-read
count. -/
def extract_features (fast5s : List Fast5) (normalize_method : String)
    (motif_seqs : List (List Char)) (methyloc : Nat)
    (chrom2len : String → Option Int) (kmer_len : Nat) (raw_signals_len : Nat)
    (methy_label : String) (draws : Nat → List Nat) : List FeatureRecord × Nat :=
  match fast5s with
  | [] => ([], 0)
  | f :: rest =>
    let r := processRead f normalize_method motif_seqs methyloc chrom2len kmer_len
      raw_signals_len methy_label draws
    let acc := extract_features rest normalize_method motif_seqs methyloc chrom2len
      kmer_len raw_signals_len methy_label draws
    (r.1 ++ acc.1, (if r.2 then 1 else 0) + acc.2)

/-- The expanded motif list for the default motif `CG`. -/
def motifCG : List (List Char) := [['C', 'G']]

/-- A one-chromosome reference length table. -/
def chromTable : String → Option Int := fun s => if s = "chr1" then some 100 else none

/-- A concrete alignment on the forward strand of `chr1`. -/
def alignA : AlignInfo := ⟨"read1", "t", "+", "chr1", 0⟩

/-- The event table of a concrete read whose base-call sequence is `CGCG`. -/
def eventsA : List (Nat × Nat × Char) :=
  [(0, 1, 'C'), (0, 1, 'G'), (0, 1, 'C'), (0, 1, 'G')]

/-- A concrete well-formed read whose base-call sequence is `CGCG` (the raw
trace is empty, so every per-base signal vector is empty — values are
irrelevant to the control-flow claims this read exercises). -/
def readA : Fast5 := ⟨some ⟨[], eventsA⟩, some alignA⟩

/-- The feature record built for site offset 2 of `readA`'s decoded content
under the forward-strand setup with `kmer_len 3` and `cent_signals_len 2`
(written via `Option.getD` so that stating facts about it never requires
kernel evaluation of its rational fields). -/
def recA : FeatureRecord :=
  (buildRecord ['C', 'G', 'C', 'G'] [[], [], [], []] "chr1" "+" "read1" "t" 100
    (startInAlignstrand "+" 0 100 4) 1 2 "1" (fun _ => []) 2).getD
    ⟨"", 0, "", 0, "", "", [], [], [], [], [], ""⟩

/-- A concrete well-formed read with an empty event table. -/
def readEmpty : Fast5 := ⟨some ⟨[], []⟩, some alignA⟩

/-- C6: coordinate mapping round-trips — applying the mapper and then the
spec's inverse strand formula with the same `chrom_len` recovers the
original in-read offset, on both strands. -/
theorem c6_roundtrip (offset chrom_start chromlen glen : Int) :
    specInverseOffset "+" chrom_start chromlen glen
        (refPosInStrand "+" chromlen (offset + startInAlignstrand "+" chrom_start chromlen glen))
      = offset ∧
    specInverseOffset "-" chrom_start chromlen glen
        (refPosInStrand "-" chromlen (offset + startInAlignstrand "-" chrom_start chromlen glen))
      = offset := by
  have e1 : startInAlignstrand "-" chrom_start chromlen glen = chromlen - (chrom_start + glen) := by
    rw [startInAlignstrand, if_neg (by decide)]
  have e2 : ∀ x, refPosInStrand "-" chromlen x = chromlen - 1 - x := fun x => by
    rw [refPosInStrand, if_pos rfl]
  have e3 : startInAlignstrand "+" chrom_start chromlen glen = chrom_start := by
    rw [startInAlignstrand, if_pos rfl]
  have e4 : ∀ x, refPosInStrand "+" chromlen x = x := fun x => by
    rw [refPosInStrand, if_neg (by decide)]
  constructor
  · rw [specInverseOffset, if_neg (by decide), e3, e4]
    omega
  · rw [specInverseOffset, if_pos rfl, e1, e2]
    omega

theorem lookupBases_length (seq : List Char) (bl : List (List (List Char)))
    (h : lookupBases seq = some bl) : bl.length = seq.length := by
  induction seq generalizing bl with
  | nil => simp [lookupBases] at h; simp [← h]
  | cons c rest ih =>
    simp only [lookupBases, Option.bind_eq_some, Option.map_eq_some'] at h
    obtain ⟨b, hb, bs, hbs, rfl⟩ := h
    simp [ih bs hbs]

theorem lookupBases_isSome (seq : List Char) (h : ∀ c ∈ seq, (iupac_alphabets c).isSome) :
    ∃ bl, lookupBases seq = some bl := by
  induction seq with
  | nil => exact ⟨[], rfl⟩
  | cons c rest ih =>
    obtain ⟨bl, hbl⟩ := ih (fun x hx => h x (List.mem_cons_of_mem _ hx))
    obtain ⟨b, hb⟩ := Option.isSome_iff_exists.mp (h c (List.mem_cons_self _ _))
    exact ⟨b :: bl, by simp [lookupBases, hb, hbl]⟩

theorem recursive_permute_eq (n : Nat) : ∀ (bl : List (List (List Char))) (fuel : Nat),
    bl.length = n → bl ≠ [] → n ≤ fuel →
    recursive_permute fuel bl = some (motifCartesian bl) := by
  induction n using Nat.strong_induction_on with
  | _ n ih =>
    intro bl fuel hlen hne hfuel
    match bl, hne with
    | [b], _ =>
      have h1 : 1 ≤ fuel := by simp at hlen; omega
      obtain ⟨f, rfl⟩ : ∃ f, fuel = f + 1 := ⟨fuel - 1, by omega⟩
      rfl
    | [b1, b2], _ =>
      have h1 : 1 ≤ fuel := by simp at hlen; omega
      obtain ⟨f, rfl⟩ : ∃ f, fuel = f + 1 := ⟨fuel - 1, by omega⟩
      rfl
    | b :: c :: d :: rest, _ =>
      have hlen3 : n = rest.length + 3 := by simp at hlen; omega
      obtain ⟨f, rfl⟩ : ∃ f, fuel = f + 1 := ⟨fuel - 1, by omega⟩
      have h1 : recursive_permute f (c :: d :: rest) = some (motifCartesian (c :: d :: rest)) :=
        ih (n - 1) (by omega) _ f (by simp; omega) (by simp) (by omega)
      have h2 : recursive_permute f [b, motifCartesian (c :: d :: rest)] =
          some (b.flatMap fun fbase => (motifCartesian (c :: d :: rest)).map fun s => fbase ++ s) := by
        obtain ⟨f', rfl⟩ : ∃ f', f = f' + 1 := ⟨f - 1, by omega⟩
        rfl
      show (recursive_permute f ((b :: c :: d :: rest).tail)).bind
          (fun pseqs => recursive_permute f [(b :: c :: d :: rest).headD [], pseqs]) = _
      simp only [List.tail_cons, List.headD_cons]
      rw [h1, Option.some_bind, h2]
      rfl

theorem motifCartesian_length : ∀ (bl : List (List (List Char))), bl ≠ [] →
    (motifCartesian bl).length = (bl.map List.length).prod := by
  intro bl
  induction bl with
  | nil => simp
  | cons b rest ih =>
    intro _
    match rest with
    | [] => simp [motifCartesian]
    | c :: rest' =>
      show (b.flatMap fun fbase => (motifCartesian (c :: rest')).map fun s => fbase ++ s).length = _
      rw [List.length_flatMap]
      have hmap : (b.map (List.length ∘ fun fbase =>
            (motifCartesian (c :: rest')).map fun s => fbase ++ s))
          = b.map (fun _ => (motifCartesian (c :: rest')).length) := by
        apply List.map_congr_left
        intro a _
        simp [Function.comp]
      rw [hmap, List.map_const', List.sum_replicate, smul_eq_mul, ih (by simp)]
      simp [List.map_cons, List.prod_cons]

/-- C9: motif expansion splits the specification on commas and expands each
element to the cartesian product of the IUPAC sets of its letters: `CG`
expands to exactly the one string `CG`, `RG` to exactly the two strings
`AG` and `GG` (identical except at the ambiguous position), and in general
the number of expansions of one element is the product of the
ambiguity-set sizes of its letters. -/
theorem c9_motif_expansion :
    get_motif_seqs 2 ['C', 'G'] = some [['C', 'G']] ∧
    get_motif_seqs 4 ['C', 'G', ',', 'R', 'G']
      = some [['C', 'G'], ['A', 'G'], ['G', 'G']] ∧
    ∀ (ori_seq : List Char) (outbases : List (List (List Char))) (fuel : Nat),
      lookupBases ori_seq = some outbases → ori_seq ≠ [] → ori_seq.length ≤ fuel →
      ∃ ms, convert_motif_seq fuel ori_seq = some ms ∧
        ms.length = (outbases.map List.length).prod := by
  refine ⟨by decide, by decide, ?_⟩
  intro ori_seq outbases fuel hlk hne hfuel
  have hoblen : outbases.length = ori_seq.length := lookupBases_length _ _ hlk
  have hobne : outbases ≠ [] := by
    intro h
    rw [h] at hoblen
    exact hne (List.length_eq_zero.mp hoblen.symm)
  refine ⟨motifCartesian outbases, ?_, motifCartesian_length _ hobne⟩
  rw [convert_motif_seq, hlk, Option.some_bind]
  exact recursive_permute_eq outbases.length outbases fuel rfl hobne (by omega)

theorem c9_motif_expansion_witness :
    ∃ ms, convert_motif_seq 2 ['R', 'G'] = some ms ∧
      ms.length = ([[['A'], ['G']], [['G']]].map List.length).prod :=
  c9_motif_expansion.2.2 ['R', 'G'] [[['A'], ['G']], [['G']]] 2 (by decide)
    (by decide) (by decide)

/-- C10: the expansion recursion returns, with fuel at least the element
length, on every non-empty motif element over recognized IUPAC letters; on
the empty element every amount of fuel is exhausted and each step recurses
on the same empty list (`bases_list[1:] == []`), so the Python recursion
never terminates. -/
theorem c10_permute_termination :
    (∀ (ori_seq : List Char) (fuel : Nat), ori_seq ≠ [] →
      (∀ c ∈ ori_seq, (iupac_alphabets c).isSome) → ori_seq.length ≤ fuel →
      (convert_motif_seq fuel ori_seq).isSome) ∧
    (∀ fuel, recursive_permute fuel [] = none) ∧
    (∀ fuel, recursive_permute (fuel + 1) [] = recursive_permute fuel []) ∧
    (∀ fuel, convert_motif_seq fuel [] = none) := by
  have hnone : ∀ fuel, recursive_permute fuel [] = none := by
    intro fuel
    induction fuel with
    | zero => rfl
    | succ f ih =>
      show (recursive_permute f (List.tail [])).bind _ = none
      rw [List.tail_nil, ih, Option.none_bind]
  refine ⟨?_, hnone, ?_, ?_⟩
  · intro ori_seq fuel hne hall hfuel
    obtain ⟨bl, hbl⟩ := lookupBases_isSome ori_seq hall
    have hlen : bl.length = ori_seq.length := lookupBases_length _ _ hbl
    have hblne : bl ≠ [] := by
      intro h
      rw [h] at hlen
      exact hne (List.length_eq_zero.mp hlen.symm)
    rw [convert_motif_seq, hbl, Option.some_bind,
      recursive_permute_eq bl.length bl fuel rfl hblne (by omega)]
    rfl
  · intro fuel
    rw [hnone, hnone]
  · intro fuel
    rw [convert_motif_seq]
    show (some []).bind _ = none
    rw [Option.some_bind, hnone]

theorem c10_permute_termination_witness :
    (convert_motif_seq 2 ['C', 'G']).isSome :=
  c10_permute_termination.1 ['C', 'G'] 2 (by decide) (by decide) (by decide)

/-- C5: the coordinate mapper uses `start_in_alignstrand = chrom_start` for
the `+` strand and `chrom_len - (chrom_start + genome_sequence_len)`
otherwise; every emitted record's align-strand position is
`offset + start_in_alignstrand`; and the strand position flips to
`chrom_len - 1 - pos` exactly on the `-` strand. -/
theorem c5_coordinate_mapper (alignstrand : String) (chrom_start chromlen glen : Int)
    (genomeseq : List Char) (signal_list : List (List ℚ)) (chrom readname strand : String)
    (num_bases raw_signals_len : Nat) (methy_label : String) (draws : Nat → List Nat)
    (loc : Nat) (r : FeatureRecord)
    (hr : buildRecord genomeseq signal_list chrom alignstrand readname strand chromlen
      (startInAlignstrand alignstrand chrom_start chromlen glen) num_bases raw_signals_len
      methy_label draws loc = some r) :
    startInAlignstrand "+" chrom_start chromlen glen = chrom_start ∧
    (alignstrand ≠ "+" → startInAlignstrand alignstrand chrom_start chromlen glen
      = chromlen - (chrom_start + glen)) ∧
    r.posInRef = (loc : Int) + startInAlignstrand alignstrand chrom_start chromlen glen ∧
    (alignstrand = "-" → r.pos = chromlen - 1 - r.posInRef) ∧
    (alignstrand ≠ "-" → r.pos = r.posInRef) := by
  rw [buildRecord] at hr
  simp only [Option.map_eq_some'] at hr
  obtain ⟨cent, hcent, rfl⟩ := hr
  refine ⟨by rw [startInAlignstrand, if_pos rfl], fun h => ?_, rfl, fun h => ?_, fun h => ?_⟩
  · rw [startInAlignstrand, if_neg h]
  · show refPosInStrand alignstrand chromlen _ = _
    rw [refPosInStrand, if_pos h]
  · show refPosInStrand alignstrand chromlen _ = _
    rw [refPosInStrand, if_neg h]

theorem getCentral_split_eq (sl : List (List ℚ)) (raw : Nat) (draw : List Nat)
    (mid left right : List ℚ) (L R : Nat)
    (hmid : sl.get? ((sl.length - 1) / 2) = some mid)
    (hleft : left = (sl.take ((sl.length - 1) / 2)).flatten)
    (hright : right = (sl.drop ((sl.length - 1) / 2)).flatten)
    (hL : L = (shiftLens ((raw - mid.length) / 2) (raw - (raw - mid.length) / 2)
        left.length right.length).1)
    (hR : R = (shiftLens ((raw - mid.length) / 2) (raw - (raw - mid.length) / 2)
        left.length right.length).2)
    (hb1 : raw ≤ (sl.map List.length).sum)
    (hb2 : mid.length < raw)
    (hn2 : sl.length ≠ 2) :
    getCentralSignals sl raw draw = some (lastN left L ++ right.take R) ∧
    L + R = raw ∧ L ≤ left.length ∧ R ≤ right.length := by
  have hlen3 : 3 ≤ sl.length := by
    rcases sl with _ | ⟨a, _ | ⟨b, _ | ⟨c, tl⟩⟩⟩
    · simp at hmid
    · simp only [List.length_singleton] at hmid ⊢
      simp [List.get?] at hmid
      subst hmid
      simp at hb1
      omega
    · simp at hn2
    · simp only [List.length_cons]
      omega
  have hmidlt : (sl.length - 1) / 2 < sl.length := by omega
  have hmloc1 : 1 ≤ (sl.length - 1) / 2 := by omega
  have htne : sl.take ((sl.length - 1) / 2) ≠ [] := by
    intro h
    have := congrArg List.length h
    simp only [List.length_take, List.length_nil] at this
    omega
  have hdne : sl.drop ((sl.length - 1) / 2) ≠ [] := by
    intro h
    have := congrArg List.length h
    simp only [List.length_drop, List.length_nil] at this
    omega
  have hsum : left.length + right.length = (sl.map List.length).sum := by
    rw [hleft, hright, List.length_flatten, List.length_flatten, ← List.sum_append,
      ← List.map_append, List.take_append_drop]
  have hLRs : L + R = raw ∧ L ≤ left.length ∧ R ≤ right.length := by
    rw [shiftLens] at hL hR
    split_ifs at hL hR <;> omega
  refine ⟨?_, hLRs⟩
  simp only [getCentralSignals]
  rw [if_neg (by omega : ¬(sl.map List.length).sum < raw), hmid]
  simp only []
  rw [if_neg (by omega : ¬raw ≤ mid.length)]
  simp only [npConcatenate]
  rw [if_neg htne, if_neg hdne]
  simp only []
  rw [← hleft, ← hright, ← hL, ← hR]
  rw [if_pos (by omega : R + L = raw)]
  by_cases hL0 : L = 0
  · rw [if_pos hL0, hL0, lastN]
    simp [List.drop_length]
  · rw [if_neg hL0]

theorem getCentral_total (sl : List (List ℚ)) (raw : Nat) (draw : List Nat)
    (h1 : sl ≠ [])
    (h2 : ¬(sl.length = 2 ∧ raw ≤ (sl.map List.length).sum ∧
      (sl.getD ((sl.length - 1) / 2) []).length < raw)) :
    ∃ v, getCentralSignals sl raw draw = some v ∧ (draw.length = raw → v.length = raw) := by
  by_cases hb1 : (sl.map List.length).sum < raw
  · refine ⟨sl.flatten ++ List.replicate (raw - sl.flatten.length) 0, ?_, fun _ => ?_⟩
    · simp only [getCentralSignals]
      rw [if_pos hb1]
      simp only [npConcatenate]
      rw [if_neg h1]
      rfl
    · have hfl : sl.flatten.length = (sl.map List.length).sum := List.length_flatten sl
      simp only [List.length_append, List.length_replicate]
      omega
  · have hmidlt : (sl.length - 1) / 2 < sl.length := by
      have : 1 ≤ sl.length := List.length_pos.mpr h1
      omega
    obtain ⟨mid, hmid⟩ : ∃ m, sl.get? ((sl.length - 1) / 2) = some m := by
      cases hm : sl.get? ((sl.length - 1) / 2) with
      | none => exact absurd (List.get?_eq_none.mp hm) (by omega)
      | some m => exact ⟨m, rfl⟩
    have hgetD : sl.getD ((sl.length - 1) / 2) [] = mid := by
      rw [List.getD_eq_getD_get?, hmid]
      rfl
    by_cases hb2 : raw ≤ mid.length
    · refine ⟨(pySorted draw).map fun x => mid.getD x 0, ?_, fun hd => ?_⟩
      · simp only [getCentralSignals]
        rw [if_neg hb1, hmid]
        simp only []
        rw [if_pos hb2]
      · rw [List.length_map, pySorted, (List.perm_insertionSort _ _).length_eq, hd]
    · have hn2 : sl.length ≠ 2 := fun h => h2 ⟨h, by omega, by rw [hgetD]; omega⟩
      obtain ⟨heq, hsum, hle1, hle2⟩ := getCentral_split_eq sl raw draw mid _ _ _ _ hmid
        rfl rfl rfl rfl (by omega) (by omega) hn2
      refine ⟨_, heq, fun _ => ?_⟩
      rw [List.length_append, lastN, List.length_drop, List.length_take]
      omega

/-- C1, amended: for every non-empty `signals_list` and non-negative target
length, provided the draw has the target length (the contract of
`random.sample`) and the input is not a two-vector list entering the split
branch (where `np.concatenate` of the empty left slice raises, see
`c1_counterexample`), `_get_central_signals` returns a vector of length
exactly `raw_signals_len`. -/
theorem c1_cent_signals_length (signals_list : List (List ℚ)) (raw_signals_len : Nat)
    (draw : List Nat)
    (hne : signals_list ≠ [])
    (hdraw : draw.length = raw_signals_len)
    (hsafe : ¬(signals_list.length = 2 ∧
      raw_signals_len ≤ (signals_list.map List.length).sum ∧
      (signals_list.getD ((signals_list.length - 1) / 2) []).length < raw_signals_len)) :
    ∃ v, getCentralSignals signals_list raw_signals_len draw = some v ∧
      v.length = raw_signals_len := by
  obtain ⟨v, hv, hl⟩ := getCentral_total signals_list raw_signals_len draw hne hsafe
  exact ⟨v, hv, hl hdraw⟩

theorem c1_cent_signals_length_witness :
    ∃ v, getCentralSignals [[1], [2], [3]] 2 [0, 1] = some v ∧ v.length = 2 :=
  c1_cent_signals_length [[1], [2], [3]] 2 [0, 1] (by decide) (by decide) (by decide)

/-- C1 counterexample: on the non-empty two-vector list `[[1], [2, 3]]`
with target 2 the split branch concatenates the empty left slice, so the
sampler raises instead of returning a vector of length 2. -/
theorem c1_counterexample :
    getCentralSignals [[1], [2, 3]] 2 [0, 1] = none := by decide

/-- C3, amended: in the split branch (total samples at least the target,
central vector shorter than the target), excluding the two-vector input on
which the branch raises (see `c3_counterexample`), the budgets are
`left_len = (target_len - mid_len) / 2` and `right_len = target_len -
left_len`, a shortfall of either side is shifted onto the other so the two
always sum to `target_len`, and the result is the last `left_len` samples
of the concatenation strictly before the floor-midpoint followed by the
first `right_len` samples of the concatenation from the midpoint on. -/
theorem c3_split_branch (signals_list : List (List ℚ)) (raw_signals_len : Nat)
    (draw : List Nat) (mid left right : List ℚ) (left_len right_len : Nat)
    (hmid : signals_list.get? ((signals_list.length - 1) / 2) = some mid)
    (hleft : left = (signals_list.take ((signals_list.length - 1) / 2)).flatten)
    (hright : right = (signals_list.drop ((signals_list.length - 1) / 2)).flatten)
    (hll : left_len = (raw_signals_len - mid.length) / 2)
    (hrl : right_len = raw_signals_len - left_len)
    (hb1 : raw_signals_len ≤ (signals_list.map List.length).sum)
    (hb2 : mid.length < raw_signals_len)
    (hn2 : signals_list.length ≠ 2) :
    (left.length < left_len →
      shiftLens left_len right_len left.length right.length
        = (left.length, raw_signals_len - left.length)) ∧
    (left_len ≤ left.length → right.length < right_len →
      shiftLens left_len right_len left.length right.length
        = (raw_signals_len - right.length, right.length)) ∧
    (left_len ≤ left.length → right_len ≤ right.length →
      shiftLens left_len right_len left.length right.length = (left_len, right_len)) ∧
    (shiftLens left_len right_len left.length right.length).1 +
      (shiftLens left_len right_len left.length right.length).2 = raw_signals_len ∧
    getCentralSignals signals_list raw_signals_len draw =
      some (lastN left (shiftLens left_len right_len left.length right.length).1 ++
        right.take (shiftLens left_len right_len left.length right.length).2) := by
  subst hll
  subst hrl
  obtain ⟨heq, hsum, hle1, hle2⟩ := getCentral_split_eq signals_list raw_signals_len draw mid
    left right _ _ hmid hleft hright rfl rfl hb1 hb2 hn2
  have hdiv : (raw_signals_len - mid.length) / 2 ≤ raw_signals_len := by omega
  have hle : (raw_signals_len - mid.length) / 2 ≤ raw_signals_len :=
    le_trans (Nat.div_le_self _ _) (Nat.sub_le _ _)
  refine ⟨?_, ?_, ?_, hsum, heq⟩
  · intro h
    rw [shiftLens, if_pos h, Nat.sub_add_cancel hle]
  · intro h h'
    rw [shiftLens, if_neg (Nat.not_lt.mpr h), if_pos h', Nat.add_sub_cancel' hle]
  · intro h h'
    rw [shiftLens, if_neg (Nat.not_lt.mpr h), if_neg (Nat.not_lt.mpr h')]

theorem c3_split_branch_witness :
    (shiftLens 1 2 1 3).1 + (shiftLens 1 2 1 3).2 = 3 ∧
    getCentralSignals [[1], [2], [3, 4]] 3 [] =
      some (lastN [1] (shiftLens 1 2 1 3).1 ++ ([2, 3, 4] : List ℚ).take (shiftLens 1 2 1 3).2) := by
  obtain ⟨_, _, _, h4, h5⟩ := c3_split_branch [[1], [2], [3, 4]] 3 [] [2] [1] [2, 3, 4] 1 2
    (by decide) (by decide) (by decide) (by decide) (by decide) (by decide) (by decide) (by decide)
  exact ⟨h4, h5⟩

/-- C3 counterexample: `[[5], [6, 7]]` with target 2 satisfies the split
branch's entry conditions, yet the sampler raises (empty left
concatenation) rather than producing the described split vector. -/
theorem c3_counterexample :
    2 ≤ (([[5], [6, 7]] : List (List ℚ)).map List.length).sum ∧
    (([[5], [6, 7]] : List (List ℚ)).getD ((([[5], [6, 7]] : List (List ℚ)).length - 1) / 2)
      []).length < 2 ∧
    getCentralSignals [[5], [6, 7]] 2 [0] = none := by decide

/-- C4: in the random branch (central vector at least as long as the
target), for every draw satisfying `random.sample`'s contract the output
reads the central vector at `target_len` distinct indices sorted
ascending — an order-preserving, without-replacement subsequence of the
central vector. -/
theorem c4_random_branch (signals_list : List (List ℚ)) (raw_signals_len : Nat)
    (draw : List Nat) (mid : List ℚ)
    (hmid : signals_list.get? ((signals_list.length - 1) / 2) = some mid)
    (hlen : raw_signals_len ≤ mid.length)
    (hdlen : draw.length = raw_signals_len)
    (hnodup : draw.Nodup)
    (hbound : ∀ i ∈ draw, i < mid.length) :
    ∃ idxs : List Nat, List.Sorted (· < ·) idxs ∧ idxs.length = raw_signals_len ∧
      (∀ i ∈ idxs, i < mid.length) ∧
      getCentralSignals signals_list raw_signals_len draw =
        some (idxs.map fun x => mid.getD x 0) := by
  have hperm : (pySorted draw).Perm draw := List.perm_insertionSort (· ≤ ·) draw
  have hsorted : List.Sorted (· ≤ ·) (pySorted draw) := List.sorted_insertionSort _ _
  have hnd : (pySorted draw).Nodup := hperm.symm.nodup hnodup
  have hlt : List.Sorted (· < ·) (pySorted draw) :=
    (List.Pairwise.and hsorted hnd).imp fun h => lt_of_le_of_ne h.1 h.2
  have hmem : mid ∈ signals_list := List.get?_mem hmid
  have hmidsum : mid.length ≤ (signals_list.map List.length).sum :=
    List.single_le_sum (fun x _ => Nat.zero_le x) _ (List.mem_map_of_mem List.length hmem)
  refine ⟨pySorted draw, hlt, by rw [hperm.length_eq, hdlen], ?_, ?_⟩
  · intro i hi
    exact hbound i (hperm.mem_iff.mp hi)
  · simp only [getCentralSignals]
    rw [if_neg (by omega), hmid]
    simp only []
    rw [if_pos hlen]

theorem c4_random_branch_witness :
    ∃ idxs : List Nat, List.Sorted (· < ·) idxs ∧ idxs.length = 2 ∧
      (∀ i ∈ idxs, i < ([1, 2, 3] : List ℚ).length) ∧
      getCentralSignals [[1, 2, 3]] 2 [2, 0] =
        some (idxs.map fun x => ([1, 2, 3] : List ℚ).getD x 0) :=
  c4_random_branch [[1, 2, 3]] 2 [2, 0] [1, 2, 3] (by decide) (by decide) (by decide)
    (by decide) (by decide)

theorem processRead_config_fail (fast5 : Fast5) (normalize_method : String)
    (motif_seqs : List (List Char)) (methyloc : Nat) (chrom2len : String → Option Int)
    (kmer_len raw_signals_len : Nat) (methy_label : String) (draws : Nat → List Nat)
    (h : kmer_len % 2 = 0 ∨ (normalize_method ≠ "zscore" ∧ normalize_method ≠ "mad")) :
    processRead fast5 normalize_method motif_seqs methyloc chrom2len kmer_len
      raw_signals_len methy_label draws = ([], true) := by
  rcases h with hk | hm
  · simp only [processRead]
    split
    · rfl
    split
    · rfl
    split
    · rfl
    split
    · rfl
    rw [if_pos hk]
  · have hnone : ∀ sig, normalizeSignals sig normalize_method = none := fun sig => by
      rw [normalizeSignals, if_neg hm.1, if_neg hm.2]
    simp only [processRead]
    split
    · rfl
    rw [hnone]

/-- C2, amended: an even `kmer_len` (or an unrecognized normalization
method) is not surfaced before processing: every read of the batch is
processed, raises inside the per-read `try`, and is counted as a failure;
the batch completes normally with zero records and a failure count equal
to the number of reads. -/
theorem c2_config_error (fast5s : List Fast5) (normalize_method : String)
    (motif_seqs : List (List Char)) (methyloc : Nat) (chrom2len : String → Option Int)
    (kmer_len raw_signals_len : Nat) (methy_label : String) (draws : Nat → List Nat)
    (h : kmer_len % 2 = 0 ∨ (normalize_method ≠ "zscore" ∧ normalize_method ≠ "mad")) :
    extract_features fast5s normalize_method motif_seqs methyloc chrom2len kmer_len
      raw_signals_len methy_label draws = ([], fast5s.length) := by
  induction fast5s with
  | nil => rfl
  | cons f rest ih =>
    simp only [extract_features]
    rw [processRead_config_fail f normalize_method motif_seqs methyloc chrom2len kmer_len
      raw_signals_len methy_label draws h, ih]
    simp [Nat.add_comm]

theorem c2_config_error_witness :
    extract_features [readEmpty] "mad" motifCG 0 chromTable 4 2 "1" (fun _ => [])
      = ([], 1) :=
  c2_config_error [readEmpty] "mad" motifCG 0 chromTable 4 2 "1" (fun _ => [])
    (Or.inl (by decide))

/-- C2 counterexample: with even `kmer_len = 4` the extractor does not
fail fatally before processing reads — it processes the batch's single
read, counts it as a per-read failure and returns normally; the same read
processes successfully (failure count 0) with `kmer_len = 5`. -/
theorem c2_counterexample :
    extract_features [readEmpty] "mad" motifCG 0 chromTable 4 2 "1" (fun _ => [])
      = ([], 1) ∧
    extract_features [readEmpty] "mad" motifCG 0 chromTable 5 2 "1" (fun _ => [])
      = ([], 0) := by
  exact ⟨by decide, by decide⟩

theorem extract_features_records (fast5s : List Fast5) (normalize_method : String)
    (motif_seqs : List (List Char)) (methyloc : Nat) (chrom2len : String → Option Int)
    (kmer_len raw_signals_len : Nat) (methy_label : String) (draws : Nat → List Nat) :
    (extract_features fast5s normalize_method motif_seqs methyloc chrom2len kmer_len
        raw_signals_len methy_label draws).1 =
      (fast5s.map fun f => (processRead f normalize_method motif_seqs methyloc chrom2len
        kmer_len raw_signals_len methy_label draws).1).flatten := by
  induction fast5s with
  | nil => rfl
  | cons f rest ih =>
    simp only [extract_features, List.map_cons, List.flatten_cons]
    rw [ih]

theorem extract_features_errors (fast5s : List Fast5) (normalize_method : String)
    (motif_seqs : List (List Char)) (methyloc : Nat) (chrom2len : String → Option Int)
    (kmer_len raw_signals_len : Nat) (methy_label : String) (draws : Nat → List Nat) :
    (extract_features fast5s normalize_method motif_seqs methyloc chrom2len kmer_len
        raw_signals_len methy_label draws).2 =
      fast5s.countP (fun f => (processRead f normalize_method motif_seqs methyloc chrom2len
        kmer_len raw_signals_len methy_label draws).2) := by
  induction fast5s with
  | nil => rfl
  | cons f rest ih =>
    simp only [extract_features, List.countP_cons]
    rw [ih]
    cases h : (processRead f normalize_method motif_seqs methyloc chrom2len kmer_len
        raw_signals_len methy_label draws).2 <;> simp [h, Nat.add_comm]

/-- C7: per-read errors are isolated — the batch extractor returns the
concatenated records of the individual reads, its failure count is the
number of reads whose processing raised, and the reported success count
`len(fast5s) - error` equals the number of reads that did not raise. -/
theorem c7_per_read_isolation (fast5s : List Fast5) (normalize_method : String)
    (motif_seqs : List (List Char)) (methyloc : Nat) (chrom2len : String → Option Int)
    (kmer_len raw_signals_len : Nat) (methy_label : String) (draws : Nat → List Nat) :
    (extract_features fast5s normalize_method motif_seqs methyloc chrom2len kmer_len
        raw_signals_len methy_label draws).1 =
      (fast5s.map fun f => (processRead f normalize_method motif_seqs methyloc chrom2len
        kmer_len raw_signals_len methy_label draws).1).flatten ∧
    (extract_features fast5s normalize_method motif_seqs methyloc chrom2len kmer_len
        raw_signals_len methy_label draws).2 =
      fast5s.countP (fun f => (processRead f normalize_method motif_seqs methyloc chrom2len
        kmer_len raw_signals_len methy_label draws).2) ∧
    fast5s.length - (extract_features fast5s normalize_method motif_seqs methyloc chrom2len
        kmer_len raw_signals_len methy_label draws).2 =
      fast5s.countP (fun f => !(processRead f normalize_method motif_seqs methyloc chrom2len
        kmer_len raw_signals_len methy_label draws).2) := by
  refine ⟨extract_features_records _ _ _ _ _ _ _ _ _,
    extract_features_errors _ _ _ _ _ _ _ _ _, ?_⟩
  rw [extract_features_errors]
  have h := List.length_eq_countP_add_countP
    (fun f => (processRead f normalize_method motif_seqs methyloc chrom2len kmer_len
      raw_signals_len methy_label draws).2) fast5s
  have hc : fast5s.countP (fun a => decide ¬((processRead a normalize_method motif_seqs
      methyloc chrom2len kmer_len raw_signals_len methy_label draws).2 = true)) =
      fast5s.countP (fun f => !(processRead f normalize_method motif_seqs methyloc chrom2len
        kmer_len raw_signals_len methy_label draws).2) := by
    apply List.countP_congr
    intro a _
    cases (processRead a normalize_method motif_seqs methyloc chrom2len kmer_len
      raw_signals_len methy_label draws).2 <;> simp
  omega

theorem buildRecord_isSome (genomeseq : List Char) (signal_list : List (List ℚ))
    (chrom alignstrand readname strand : String) (chromlen chrom_start_in_alignstrand : Int)
    (num_bases raw_signals_len : Nat) (methy_label : String) (draws : Nat → List Nat)
    (loc : Nat)
    (hsig : signal_list.length = genomeseq.length)
    (hin : num_bases ≤ loc ∧ loc < genomeseq.length - num_bases) :
    ∃ r, buildRecord genomeseq signal_list chrom alignstrand readname strand chromlen
      chrom_start_in_alignstrand num_bases raw_signals_len methy_label draws loc = some r := by
  have hklen : ((signal_list.drop (loc - num_bases)).take
      (loc + num_bases + 1 - (loc - num_bases))).length = 2 * num_bases + 1 := by
    rw [List.length_take, List.length_drop, hsig]
    omega
  obtain ⟨v, hv, _⟩ := getCentral_total
    ((signal_list.drop (loc - num_bases)).take (loc + num_bases + 1 - (loc - num_bases)))
    raw_signals_len (draws loc)
    (by intro hcon; rw [hcon] at hklen; simp at hklen)
    (by intro hcon; rw [hklen] at hcon; omega)
  simp only [buildRecord]
  rw [hv]
  exact ⟨_, rfl⟩

theorem siteRecords_filter (genomeseq : List Char) (signal_list : List (List ℚ))
    (chrom alignstrand readname strand : String) (chromlen chrom_start_in_alignstrand : Int)
    (num_bases raw_signals_len : Nat) (methy_label : String) (draws : Nat → List Nat)
    (hsig : signal_list.length = genomeseq.length) :
    ∀ locs : List Nat,
      siteRecords genomeseq signal_list chrom alignstrand readname strand chromlen
        chrom_start_in_alignstrand num_bases raw_signals_len methy_label draws locs =
      ((locs.filter fun loc =>
          decide (num_bases ≤ loc ∧ loc < genomeseq.length - num_bases)).filterMap
        (buildRecord genomeseq signal_list chrom alignstrand readname strand chromlen
          chrom_start_in_alignstrand num_bases raw_signals_len methy_label draws), false) := by
  intro locs
  induction locs with
  | nil => rfl
  | cons loc rest ih =>
    by_cases hin : num_bases ≤ loc ∧ loc < genomeseq.length - num_bases
    · obtain ⟨r, hr⟩ := buildRecord_isSome genomeseq signal_list chrom alignstrand readname
        strand chromlen chrom_start_in_alignstrand num_bases raw_signals_len methy_label
        draws loc hsig hin
      simp only [siteRecords]
      rw [if_pos hin, hr, ih]
      have hfil : List.filter
            (fun l => decide (num_bases ≤ l ∧ l < genomeseq.length - num_bases)) (loc :: rest)
          = loc :: List.filter
            (fun l => decide (num_bases ≤ l ∧ l < genomeseq.length - num_bases)) rest :=
        List.filter_cons_of_pos (by simpa using hin)
      rw [hfil, List.filterMap_cons_some hr]
    · simp only [siteRecords]
      rw [if_neg hin, ih, List.filter_cons_of_neg (by simpa using hin)]

/-- C8: a site offset yields a record only if `num_bases ≤ o <
len(genomeseq) - num_bases` with `num_bases = (kmer_len - 1) / 2`;
out-of-bounds sites are silently dropped: once a read reaches the site
loop, its records are exactly those of the in-bounds sites, in order, and
the read is not marked failed. -/
theorem c8_bounds_skip (fast5 : Fast5) (normalize_method : String)
    (motif_seqs : List (List Char)) (methyloc : Nat) (chrom2len : String → Option Int)
    (kmer_len raw_signals_len : Nat) (methy_label : String) (draws : Nat → List Nat)
    (dr : DecodedRead) (ns : List ℚ) (a : AlignInfo) (chromlen : Int)
    (hdec : fast5.decoded = some dr)
    (hnorm : normalizeSignals dr.rawSignal normalize_method = some ns)
    (halign : fast5.align = some a)
    (hchrom : chrom2len a.chrom = some chromlen)
    (hodd : kmer_len % 2 = 1) :
    processRead fast5 normalize_method motif_seqs methyloc chrom2len kmer_len
        raw_signals_len methy_label draws =
      (((motif_seqs.flatMap fun mseq => get_refloc_of_methysite_in_motif
            (dr.events.map fun e => e.2.2) mseq methyloc).filter fun loc =>
          decide ((kmer_len - 1) / 2 ≤ loc ∧
            loc < (dr.events.map fun e => e.2.2).length - (kmer_len - 1) / 2)).filterMap
        (buildRecord (dr.events.map fun e => e.2.2)
          (dr.events.map fun e => (ns.drop e.1).take e.2.1) a.chrom a.alignstrand
          a.readname a.strand chromlen
          (startInAlignstrand a.alignstrand a.chromStart chromlen
            ((dr.events.map fun e => e.2.2).length : Int))
          ((kmer_len - 1) / 2) raw_signals_len methy_label draws), false) := by
  simp only [processRead]
  rw [hdec]
  simp only []
  rw [hnorm]
  simp only []
  rw [halign]
  simp only []
  rw [hchrom]
  simp only []
  rw [if_neg (by omega)]
  exact siteRecords_filter _ _ _ _ _ _ _ _ _ _ _ _ (by simp) _

theorem opt_eq_some_getD {α : Type} (o : Option α) (d : α) (h : o.isSome) :
    o = some (o.getD d) := by
  cases o with
  | none => simp at h
  | some x => rfl

theorem c5_coordinate_mapper_witness :
    startInAlignstrand "+" 0 100 4 = 0 ∧
    recA.posInRef = (2 : Int) + startInAlignstrand "+" 0 100 4 ∧
    recA.pos = recA.posInRef := by
  obtain ⟨h1, _, h3, _, h5⟩ := c5_coordinate_mapper "+" 0 100 4 ['C', 'G', 'C', 'G']
    [[], [], [], []] "chr1" "read1" "t" 1 2 "1" (fun _ => []) 2 recA
    (opt_eq_some_getD _ _ (by decide))
  exact ⟨h1, h3, h5 (by decide)⟩

theorem c8_bounds_skip_witness :
    (processRead readA "mad" motifCG 0 chromTable 3 2 "1" (fun _ => [])).2 = false ∧
    (processRead readA "mad" motifCG 0 chromTable 3 2 "1" (fun _ => [])).1.length = 1 := by
  have h := c8_bounds_skip readA "mad" motifCG 0 chromTable 3 2 "1" (fun _ => [])
    ⟨[], eventsA⟩ [] alignA 100 rfl rfl rfl (by decide) (by decide)
  rw [h]
  exact ⟨rfl, by decide⟩

end DeepSignal
